import Mathlib

/-!
Shallow embedding of `src/poldercast/vicinity.rs` (the Vicinity topology
layer of the poldercast crate) together with models of its external
collaborators (`Address`, `NodeProfile`, `Node`, `Nodes`, `GossipsBuilder`,
`ViewBuilder`), which are declared elsewhere in the crate and are modelled
here from the specification.

The random shuffle (`profiles.shuffle(&mut rand::thread_rng())`) is
modelled by an explicit permutation parameter `σ : List Node → List Node`;
theorems quantify over all `σ` whose application to the given pool is a
permutation of it.  The unstable parallel sort (`par_sort_unstable_by`) is
modelled by the stable `List.mergeSort`: composing an arbitrary input
permutation with a stable sort produces exactly the set of sorted
permutations of the pool, which is exactly the set of possible outputs of
an unstable sort run after an arbitrary shuffle.
-/

namespace Poldercast

/-- Modelled from the spec: an `Address` is an opaque unique peer identifier
with total order and equality; modelled as `Nat`. -/
abbrev Address := Nat

/-- Modelled from the spec: a `NodeProfile` describes a peer's interests and
optionally carries the peer's own address (`NodeProfile::address` returns an
`Option`).  The interest content relevant to proximity is abstracted into a
`pid` field; the proximity metric itself is a parameter of the development. -/
structure NodeProfile where
  address : Option Address
  pid : Nat
deriving DecidableEq

/-- Modelled from the spec: a `Node` pairs an `Address` with a `NodeProfile`. -/
structure Node where
  address : Address
  profile : NodeProfile
deriving DecidableEq

/-- Modelled from the spec: the node registry `Nodes` exposes the set of
currently available addresses and lookup-by-address returning an optional
node handle.  `peek_mut` is modelled identically to `peek` (the registry is
pure in this embedding). -/
structure Nodes where
  available_nodes : List Address
  peek : Address → Option Node

/-- Modelled from the spec: registry well-formedness — the enumeration of
available addresses is duplicate-free (it is a set), and a lookup that
succeeds returns a node carrying the queried address (addresses have stable
identity). -/
def Nodes.WF (ns : Nodes) : Prop :=
  ns.available_nodes.Nodup ∧ ∀ a n, ns.peek a = some n → n.address = a

/-- Modelled from the spec: the gossip accumulator exposes the intended
recipient address and an append operation.  `select_closest_nodes` returns
addresses, so the appended recommendations are addresses. -/
structure GossipsBuilder where
  recipient : Address
  gossips : List Address
deriving DecidableEq

/-- Modelled from the spec: `GossipsBuilder::add` appends a recommendation. -/
def GossipsBuilder.add (gb : GossipsBuilder) (a : Address) : GossipsBuilder :=
  { gb with gossips := gb.gossips ++ [a] }

/-- Modelled from the spec: the view accumulator accepts node handles to
merge into a combined overlay view. -/
structure ViewBuilder where
  nodes : List Node
deriving DecidableEq

/-- Modelled from the spec: `ViewBuilder::add` merges a node handle. -/
def ViewBuilder.add (vb : ViewBuilder) (n : Node) : ViewBuilder :=
  { vb with nodes := vb.nodes ++ [n] }

/-- The proximity metric: an application-defined total-order distance
between two profiles, lower meaning nearer.  It is a parameter everywhere
(the crate treats `NodeProfile::proximity` as an external collaborator). -/
abbrev Proximity := NodeProfile → NodeProfile → Nat

/-- A shuffle: the modelled effect of `profiles.shuffle(&mut thread_rng())`. -/
abbrev Shuffle := List Node → List Node

/-- Proximity of a candidate node to the target profile `to`:
`to.proximity(node.profile())` in the source. -/
def proxKey (prox : Proximity) (tgt : NodeProfile) (n : Node) : Nat :=
  prox tgt n.profile

/-- The comparator of `select_closest_nodes`:
`to.proximity(left.profile()).cmp(&to.proximity(right.profile()))`,
sorting by ascending proximity. -/
def proxLe (prox : Proximity) (tgt : NodeProfile) (l r : Node) : Bool :=
  decide (proxKey prox tgt l ≤ proxKey prox tgt r)

/-- The sort step of `select_closest_nodes`:
`profiles.par_sort_unstable_by(|l, r| to.proximity(l).cmp(&to.proximity(r)))`
applied after the shuffle.  The shuffle is the explicit `σ`. -/
def sortedPool (prox : Proximity) (σ : Shuffle) (tgt : NodeProfile)
    (profiles : List Node) : List Node :=
  (σ profiles).mergeSort (proxLe prox tgt)

/-- The retained candidates of `select_closest_nodes`:
`profiles.into_iter().take(max)` after shuffling and sorting. -/
def selectClosestSorted (prox : Proximity) (σ : Shuffle) (tgt : NodeProfile)
    (profiles : List Node) (max : Nat) : List Node :=
  (sortedPool prox σ tgt profiles).take max

/-- `Vicinity::select_closest_nodes`: shuffle the candidate pool, sort by
ascending proximity to `to`, take the first `max`, and map each retained
candidate to its address. -/
def select_closest_nodes (prox : Proximity) (σ : Shuffle) (tgt : NodeProfile)
    (profiles : List Node) (max : Nat) : List Address :=
  (selectClosestSorted prox σ tgt profiles max).map Node.address

/-- The `Vicinity` layer state: the stored view and the two fixed bounds. -/
structure Vicinity where
  view : List Address
  max_view_size : Nat
  max_gossip_length : Nat
deriving DecidableEq

/-- `Vicinity::new(max_view_size, max_gossip_length)`. -/
def Vicinity.new (mvs mgl : Nat) : Vicinity :=
  { view := [], max_view_size := mvs, max_gossip_length := mgl }

/-- `VICINITY_MAX_VIEW_SIZE`. -/
def VICINITY_MAX_VIEW_SIZE : Nat := 20

/-- `VICINITY_MAX_GOSSIP_LENGTH`. -/
def VICINITY_MAX_GOSSIP_LENGTH : Nat := 10

/-- `Vicinity::default()`. -/
def Vicinity.default : Vicinity :=
  { view := [], max_view_size := VICINITY_MAX_VIEW_SIZE,
    max_gossip_length := VICINITY_MAX_GOSSIP_LENGTH }

/-- `Layer::reset` for `Vicinity`: `self.view.clear()`. -/
def Vicinity.reset (v : Vicinity) : Vicinity :=
  { v with view := [] }

/-- The candidate pool built by `Layer::populate` for `Vicinity`:
`all_nodes.available_nodes().iter()
   .filter(|id| Some(*id) != identity.address())
   .filter_map(|id| all_nodes.peek(id)).collect()`. -/
def populateCandidates (identity : NodeProfile) (ns : Nodes) : List Node :=
  (ns.available_nodes.filter
      (fun id => decide (some id ≠ identity.address))).filterMap ns.peek

/-- `Layer::populate` for `Vicinity`: replace the view with the closest
nodes to the local identity, drawn from the registry minus self. -/
def Vicinity.populate (prox : Proximity) (σ : Shuffle) (v : Vicinity)
    (identity : NodeProfile) (ns : Nodes) : Vicinity :=
  let cands := populateCandidates identity ns
  { v with view := select_closest_nodes prox σ identity cands v.max_view_size }

/-- The candidate pool built by `Layer::gossips` for `Vicinity`:
`all_nodes.available_nodes().iter()
   .filter(|id| *id != gossips_builder.recipient())
   .filter_map(|id| all_nodes.peek(id)).collect()`. -/
def gossipCandidates (recipient : Address) (ns : Nodes) : List Node :=
  (ns.available_nodes.filter (fun id => decide (id ≠ recipient))).filterMap
    ns.peek

/-- `Layer::gossips` for `Vicinity`: if the recipient resolves in the
registry, select the closest nodes to the recipient's profile (excluding
the recipient) and append each to the builder; otherwise do nothing.
Returns the (unchanged) layer and the updated builder. -/
def Vicinity.gossips (prox : Proximity) (σ : Shuffle) (v : Vicinity)
    (_identity : NodeProfile) (gb : GossipsBuilder) (ns : Nodes) :
    Vicinity × GossipsBuilder :=
  match ns.peek gb.recipient with
  | none => (v, gb)
  | some node =>
      let gs := select_closest_nodes prox σ node.profile
        (gossipCandidates gb.recipient ns) v.max_gossip_length
      (v, gs.foldl GossipsBuilder.add gb)

/-- `Layer::view` for `Vicinity`: for each address in the stored view,
resolve it in the registry and forward the node to the view builder;
unresolvable addresses are skipped.  Returns the (unchanged) layer and the
updated builder. -/
def Vicinity.viewStep (v : Vicinity) (vb : ViewBuilder) (ns : Nodes) :
    Vicinity × ViewBuilder :=
  (v, v.view.foldl
      (fun b id =>
        match ns.peek id with
        | some n => b.add n
        | none => b)
      vb)

/-! ### Basic properties of the comparator and the sort step -/

/-- The proximity comparator is transitive. -/
lemma proxLe_trans (prox : Proximity) (tgt : NodeProfile) :
    ∀ (a b c : Node), proxLe prox tgt a b → proxLe prox tgt b c →
      proxLe prox tgt a c := by
  intro a b c hab hbc
  simp only [proxLe, decide_eq_true_eq] at hab hbc ⊢
  omega

/-- The proximity comparator is total. -/
lemma proxLe_total (prox : Proximity) (tgt : NodeProfile) :
    ∀ (a b : Node), proxLe prox tgt a b || proxLe prox tgt b a := by
  intro a b
  simp only [proxLe, Bool.or_eq_true, decide_eq_true_eq]
  omega

/-- The sorted pool is a permutation of the shuffled pool. -/
lemma sortedPool_perm (prox : Proximity) (σ : Shuffle) (tgt : NodeProfile)
    (profiles : List Node) :
    (sortedPool prox σ tgt profiles).Perm (σ profiles) :=
  List.mergeSort_perm (σ profiles) (proxLe prox tgt)

/-- The sorted pool is sorted by non-decreasing proximity to the target. -/
lemma sortedPool_pairwise (prox : Proximity) (σ : Shuffle) (tgt : NodeProfile)
    (profiles : List Node) :
    (sortedPool prox σ tgt profiles).Pairwise
      (fun l r => proxKey prox tgt l ≤ proxKey prox tgt r) := by
  have h := List.sorted_mergeSort (proxLe_trans prox tgt) (proxLe_total prox tgt)
    (σ profiles)
  exact h.imp (by intro a b hab; simpa [proxLe] using hab)

/-- Folding `GossipsBuilder.add` over a list appends it to the stored
recommendations and leaves the recipient unchanged. -/
lemma foldl_gossips_add :
    ∀ (gs : List Address) (gb : GossipsBuilder),
      gs.foldl GossipsBuilder.add gb =
        { recipient := gb.recipient, gossips := gb.gossips ++ gs } := by
  intro gs
  induction gs with
  | nil => intro gb; simp
  | cons g gs ih =>
      intro gb
      simp [List.foldl_cons, ih, GossipsBuilder.add]

/-- The loop body of `Vicinity.viewStep`, folded over a list of addresses,
appends exactly the resolvable nodes, in order. -/
lemma foldl_viewStep_add (ns : Nodes) :
    ∀ (ids : List Address) (vb : ViewBuilder),
      ids.foldl
          (fun b id =>
            match ns.peek id with
            | some n => b.add n
            | none => b)
          vb =
        { nodes := vb.nodes ++ ids.filterMap ns.peek } := by
  intro ids
  induction ids with
  | nil => intro vb; simp
  | cons id ids ih =>
      intro vb
      cases h : ns.peek id with
      | none => simp [List.foldl_cons, h, ih, List.filterMap_cons]
      | some n =>
          simp only [List.foldl_cons, h, List.filterMap_cons]
          rw [ih]
          simp [ViewBuilder.add]

/-- In a well-formed registry, resolving a list of addresses and reading the
addresses back yields exactly the resolvable addresses, in order. -/
lemma map_address_filterMap_peek (ns : Nodes)
    (hWF : ∀ a n, ns.peek a = some n → n.address = a) :
    ∀ (ids : List Address),
      ((ids.filterMap ns.peek).map Node.address) =
        ids.filter (fun id => (ns.peek id).isSome) := by
  intro ids
  induction ids with
  | nil => simp
  | cons id ids ih =>
      cases h : ns.peek id with
      | none => simp [List.filterMap_cons, h, List.filter_cons, ih]
      | some n =>
          have := hWF id n h
          simp [List.filterMap_cons, h, List.filter_cons, ih, this]

/-- Every address returned by `select_closest_nodes` is the address of a
candidate in the pool. -/
lemma mem_select_closest (prox : Proximity) (σ : Shuffle) (tgt : NodeProfile)
    (profiles : List Node) (max : Nat) (x : Address)
    (hσ : (σ profiles).Perm profiles)
    (hx : x ∈ select_closest_nodes prox σ tgt profiles max) :
    x ∈ profiles.map Node.address := by
  simp only [select_closest_nodes, selectClosestSorted, List.mem_map] at hx
  obtain ⟨n, hn, rfl⟩ := hx
  have hn2 : n ∈ sortedPool prox σ tgt profiles :=
    List.mem_of_mem_take hn
  have hn3 : n ∈ profiles :=
    hσ.mem_iff.mp ((sortedPool_perm prox σ tgt profiles).mem_iff.mp hn2)
  exact List.mem_map_of_mem Node.address hn3

/-! ### Claim theorems -/

/-- Claim C2: for every candidate pool, target profile and limit, and every
shuffle permutation, the sequence returned by `select_closest_nodes` has
length exactly `min k |C|` — so an empty pool or `k = 0` yields an empty
result, and `k ≥ |C|` returns the entire pool; the function is total and
never fails. -/
theorem select_closest_length_eq_min (prox : Proximity) (σ : Shuffle)
    (tgt : NodeProfile) (profiles : List Node) (max : Nat)
    (hσ : (σ profiles).Perm profiles) :
    (select_closest_nodes prox σ tgt profiles max).length =
      min max profiles.length := by
  simp only [select_closest_nodes, selectClosestSorted, List.length_map,
    List.length_take, sortedPool, List.length_mergeSort]
  rw [hσ.length_eq]

/-- Claim C3: for every candidate pool, target profile, limit and shuffle,
the returned sequence is the address image of the retained candidate list,
and that list is sorted by non-decreasing proximity to the target. -/
theorem select_closest_sorted_by_proximity (prox : Proximity) (σ : Shuffle)
    (tgt : NodeProfile) (profiles : List Node) (max : Nat) :
    select_closest_nodes prox σ tgt profiles max =
        (selectClosestSorted prox σ tgt profiles max).map Node.address
      ∧ (selectClosestSorted prox σ tgt profiles max).Pairwise
          (fun l r => proxKey prox tgt l ≤ proxKey prox tgt r) := by
  refine ⟨rfl, ?_⟩
  exact List.Pairwise.sublist (List.take_sublist max _)
    (sortedPool_pairwise prox σ tgt profiles)

/-- Claim C7: `gossips` with a recipient that does not resolve in the
registry is a no-op — it returns the layer and builder unchanged. -/
theorem gossips_unresolved_noop (prox : Proximity) (σ : Shuffle)
    (v : Vicinity) (identity : NodeProfile) (gb : GossipsBuilder) (ns : Nodes)
    (h : ns.peek gb.recipient = none) :
    v.gossips prox σ identity gb ns = (v, gb) := by
  simp [Vicinity.gossips, h]

/-- Claim C9: `gossips` and `viewStep` leave the layer's own state (stored
view and both bounds) entirely unchanged; their only effect is on the
supplied builder. -/
theorem gossips_view_preserve_layer_state (prox : Proximity) (σ : Shuffle)
    (v : Vicinity) (identity : NodeProfile) (gb : GossipsBuilder)
    (vb : ViewBuilder) (ns : Nodes) :
    (v.gossips prox σ identity gb ns).1 = v ∧ (v.viewStep vb ns).1 = v := by
  constructor
  · cases h : ns.peek gb.recipient <;> simp [Vicinity.gossips, h]
  · rfl

/-- Claim C10: `populate` excludes from the candidate pool exactly those
registry addresses equal to `identity.address()`; when the identity profile
reports no address, nothing is excluded and every available registry node is
a candidate. -/
theorem populate_excludes_exactly_self_address (identity : NodeProfile)
    (ns : Nodes) :
    (identity.address = none →
        populateCandidates identity ns = ns.available_nodes.filterMap ns.peek)
      ∧ ∀ a, identity.address = some a →
          populateCandidates identity ns =
            (ns.available_nodes.filter (fun id => decide (id ≠ a))).filterMap
              ns.peek := by
  constructor
  · intro h
    simp [populateCandidates, h]
  · intro a h
    simp [populateCandidates, h]

/-- Claim C6: when the recipient resolves in the registry, `gossips` appends
exactly the selection over the registry minus the recipient; the appended
list has length at most `max_gossip_length`, never contains the recipient,
and is empty when `max_gossip_length = 0`. -/
theorem gossips_bounded_and_excludes_recipient (prox : Proximity)
    (σ : Shuffle) (v : Vicinity) (identity : NodeProfile)
    (gb : GossipsBuilder) (ns : Nodes) (node : Node)
    (hWF : ns.WF) (hres : ns.peek gb.recipient = some node)
    (hσ : (σ (gossipCandidates gb.recipient ns)).Perm
      (gossipCandidates gb.recipient ns)) :
    ((v.gossips prox σ identity gb ns).2).gossips =
        gb.gossips ++ select_closest_nodes prox σ node.profile
          (gossipCandidates gb.recipient ns) v.max_gossip_length
      ∧ (select_closest_nodes prox σ node.profile
          (gossipCandidates gb.recipient ns) v.max_gossip_length).length ≤
            v.max_gossip_length
      ∧ gb.recipient ∉ select_closest_nodes prox σ node.profile
          (gossipCandidates gb.recipient ns) v.max_gossip_length
      ∧ (v.max_gossip_length = 0 →
          select_closest_nodes prox σ node.profile
            (gossipCandidates gb.recipient ns) v.max_gossip_length = []) := by
  refine ⟨?_, ?_, ?_, ?_⟩
  · simp [Vicinity.gossips, hres, foldl_gossips_add]
  · simp only [select_closest_nodes, selectClosestSorted, List.length_map]
    exact List.length_take_le _ _
  · intro hmem
    have h1 := mem_select_closest prox σ node.profile
      (gossipCandidates gb.recipient ns) v.max_gossip_length gb.recipient hσ hmem
    rw [gossipCandidates, map_address_filterMap_peek ns hWF.2] at h1
    have h2 := (List.mem_filter.mp h1).1
    have h3 := (List.mem_filter.mp h2).2
    simp at h3
  · intro h
    simp [select_closest_nodes, selectClosestSorted, h]

/-- Claim C8: `viewStep` forwards to the builder exactly the nodes of the
current view that resolve in the registry, in view order; in a well-formed
registry their addresses are exactly the resolvable view addresses, in
order.  Unresolvable addresses are skipped and the operation is total. -/
theorem view_forwards_exactly_resolvable (v : Vicinity) (vb : ViewBuilder)
    (ns : Nodes) (hWF : ns.WF) :
    ((v.viewStep vb ns).2).nodes = vb.nodes ++ v.view.filterMap ns.peek
      ∧ (v.view.filterMap ns.peek).map Node.address =
          v.view.filter (fun id => (ns.peek id).isSome) := by
  refine ⟨?_, map_address_filterMap_peek ns hWF.2 v.view⟩
  simp [Vicinity.viewStep, foldl_viewStep_add]

/-- Claim C5: the view of a freshly constructed or reset layer is empty;
`populate` stores a view of length at most `max_view_size` never containing
the node's own address; `gossips` and `viewStep` leave the view unchanged.
Hence after every operation the view is bounded and excludes self. -/
theorem view_bounded_and_excludes_self (prox : Proximity) (σp σg : Shuffle)
    (mvs mgl : Nat) (v : Vicinity) (identity : NodeProfile) (a : Address)
    (gb : GossipsBuilder) (vb : ViewBuilder) (ns : Nodes)
    (hWF : ns.WF)
    (hσp : (σp (populateCandidates identity ns)).Perm
      (populateCandidates identity ns))
    (hself : identity.address = some a) :
    (Vicinity.new mvs mgl).view = []
      ∧ v.reset.view = []
      ∧ (v.populate prox σp identity ns).view.length ≤
          (v.populate prox σp identity ns).max_view_size
      ∧ a ∉ (v.populate prox σp identity ns).view
      ∧ (v.gossips prox σg identity gb ns).1.view = v.view
      ∧ (v.viewStep vb ns).1.view = v.view := by
  refine ⟨rfl, rfl, ?_, ?_, ?_, rfl⟩
  · simp only [Vicinity.populate, select_closest_nodes, selectClosestSorted,
      List.length_map]
    exact List.length_take_le _ _
  · intro hmem
    simp only [Vicinity.populate] at hmem
    have h1 := mem_select_closest prox σp identity
      (populateCandidates identity ns) v.max_view_size a hσp hmem
    rw [populateCandidates, map_address_filterMap_peek ns hWF.2] at h1
    have h2 := (List.mem_filter.mp h1).1
    have h3 := (List.mem_filter.mp h2).2
    rw [hself] at h3
    simp at h3
  · cases h : ns.peek gb.recipient <;> simp [Vicinity.gossips, h]

/-- The selection has no duplicate addresses when the candidate pool has no
duplicate addresses. -/
lemma select_closest_nodup (prox : Proximity) (σ : Shuffle)
    (tgt : NodeProfile) (profiles : List Node) (max : Nat)
    (hσ : (σ profiles).Perm profiles)
    (hA : (profiles.map Node.address).Nodup) :
    (select_closest_nodes prox σ tgt profiles max).Nodup := by
  have hperm : (sortedPool prox σ tgt profiles).Perm profiles :=
    (sortedPool_perm prox σ tgt profiles).trans hσ
  have h1 : ((sortedPool prox σ tgt profiles).map Node.address).Nodup :=
    ((hperm.map Node.address).nodup_iff).mpr hA
  have h2 : select_closest_nodes prox σ tgt profiles max =
      ((sortedPool prox σ tgt profiles).map Node.address).take max := by
    simp [select_closest_nodes, selectClosestSorted, List.map_take]
  rw [h2]
  exact List.Nodup.sublist (List.take_sublist _ _) h1

/-- In a well-formed registry, a candidate pool built by filtering the
available addresses and resolving them has no duplicate addresses. -/
lemma candidates_address_nodup (ns : Nodes) (hWF : ns.WF)
    (p : Address → Bool) :
    (((ns.available_nodes.filter p).filterMap ns.peek).map Node.address).Nodup := by
  rw [map_address_filterMap_peek ns hWF.2]
  exact (List.Nodup.filter _ (List.Nodup.filter _ hWF.1))

/-- Claim C4: no output of the layer contains duplicate addresses: the
selection itself (over any address-duplicate-free pool), the view stored by
`populate`, the gossip recommendations (a selection over the registry minus
the recipient), and the addresses exported by `viewStep` from a
duplicate-free view. -/
theorem layer_outputs_nodup (prox : Proximity) (σ σp σg : Shuffle)
    (tgt identity : NodeProfile) (profiles : List Node) (max : Nat)
    (v : Vicinity) (rnode : Node) (recipient : Address) (ns : Nodes)
    (hA : (profiles.map Node.address).Nodup) (hσ : (σ profiles).Perm profiles)
    (hWF : ns.WF)
    (hσp : (σp (populateCandidates identity ns)).Perm
      (populateCandidates identity ns))
    (hσg : (σg (gossipCandidates recipient ns)).Perm
      (gossipCandidates recipient ns))
    (hview : v.view.Nodup) :
    (select_closest_nodes prox σ tgt profiles max).Nodup
      ∧ ((v.populate prox σp identity ns).view).Nodup
      ∧ (select_closest_nodes prox σg rnode.profile
          (gossipCandidates recipient ns) v.max_gossip_length).Nodup
      ∧ ((((v.viewStep { nodes := [] } ns).2).nodes).map Node.address).Nodup := by
  refine ⟨select_closest_nodup prox σ tgt profiles max hσ hA, ?_, ?_, ?_⟩
  · exact select_closest_nodup prox σp identity (populateCandidates identity ns)
      v.max_view_size hσp (candidates_address_nodup ns hWF _)
  · exact select_closest_nodup prox σg rnode.profile
      (gossipCandidates recipient ns) v.max_gossip_length hσg
      (candidates_address_nodup ns hWF _)
  · have h := foldl_viewStep_add ns v.view { nodes := [] }
    simp only [Vicinity.viewStep, h, List.nil_append]
    rw [map_address_filterMap_peek ns hWF.2]
    exact List.Nodup.filter _ hview

/-! ### Shuffle-independence under distinct proximity values (claim C1) -/

/-- Two permutations of the same elements that are both strictly sorted by
a numeric key are equal. -/
lemma perm_pairwise_lt_eq {key : Node → Nat} :
    ∀ {s1 s2 : List Node}, s1.Perm s2 →
      s1.Pairwise (fun x y => key x < key y) →
      s2.Pairwise (fun x y => key x < key y) → s1 = s2 := by
  intro s1
  induction s1 with
  | nil =>
      intro s2 hp _ _
      exact (hp.symm.eq_nil).symm
  | cons a t1 ih =>
      intro s2 hp hs1 hs2
      cases s2 with
      | nil => exact absurd hp.eq_nil (by simp)
      | cons b t2 =>
          have hab : a = b := by
            have ha : a ∈ b :: t2 := hp.subset (List.mem_cons_self a t1)
            rcases List.mem_cons.mp ha with h | h
            · exact h
            · have hba : key b < key a := (List.pairwise_cons.mp hs2).1 a h
              have hb : b ∈ a :: t1 := hp.symm.subset (List.mem_cons_self b t2)
              rcases List.mem_cons.mp hb with h2 | h2
              · subst h2; omega
              · have : key a < key b := (List.pairwise_cons.mp hs1).1 b h2
                omega
          subst hab
          rw [ih hp.cons_inv (List.pairwise_cons.mp hs1).2
            (List.pairwise_cons.mp hs2).2]

/-- A list sorted by a key, all of whose key values are distinct, is
strictly sorted by that key. -/
lemma pairwise_lt_of_sorted_nodup {key : Node → Nat} {s : List Node}
    (hs : s.Pairwise (fun x y => key x ≤ key y))
    (hn : (s.map key).Nodup) :
    s.Pairwise (fun x y => key x < key y) := by
  have hne : s.Pairwise (fun x y => key x ≠ key y) := List.pairwise_map.mp hn
  exact (hs.and hne).imp (fun h => lt_of_le_of_ne h.1 h.2)

/-- In a strictly key-sorted list, an element lies in the first `max`
entries exactly when fewer than `max` elements of the list have a strictly
smaller key. -/
lemma mem_take_iff_countP_lt {key : Node → Nat} :
    ∀ {s : List Node}, s.Pairwise (fun x y => key x < key y) →
      ∀ {c}, c ∈ s → ∀ (max : Nat),
        (c ∈ s.take max ↔
          s.countP (fun d => decide (key d < key c)) < max) := by
  intro s
  induction s with
  | nil =>
      intro _ c hc
      cases hc
  | cons a t ih =>
      intro hs c hc max
      rcases List.mem_cons.mp hc with rfl | hct
      · have hzero : (c :: t).countP (fun d => decide (key d < key c)) = 0 := by
          rw [List.countP_cons]
          have ht : t.countP (fun d => decide (key d < key c)) = 0 := by
            rw [List.countP_eq_zero]
            intro d hd
            have := (List.pairwise_cons.mp hs).1 d hd
            simp
            omega
          simp [ht]
        rw [hzero]
        cases max with
        | zero => simp
        | succ m => simp
      · have hac : key a < key c := (List.pairwise_cons.mp hs).1 c hct
        have hcount : (a :: t).countP (fun d => decide (key d < key c)) =
            t.countP (fun d => decide (key d < key c)) + 1 := by
          rw [List.countP_cons]
          simp [hac]
        have hca : c ≠ a := by
          intro h
          subst h
          omega
        cases max with
        | zero => simp [hcount]
        | succ m =>
            rw [hcount, List.take_succ_cons]
            simp only [List.mem_cons, hca, false_or]
            rw [ih (List.pairwise_cons.mp hs).2 hct m]
            omega

/-- Claim C1 (amended): provided the candidates' proximity values to the
target are pairwise distinct, the sequence returned by
`select_closest_nodes` is identical for any two shuffle permutations, and a
candidate is retained exactly when fewer than `k` candidates in the pool
are strictly closer to the target — the set selected is exactly the
globally closest `k`. -/
theorem select_closest_globally_closest_of_distinct (prox : Proximity)
    (σ1 σ2 : Shuffle) (tgt : NodeProfile) (profiles : List Node) (max : Nat)
    (hk : (profiles.map (proxKey prox tgt)).Nodup)
    (h1 : (σ1 profiles).Perm profiles) (h2 : (σ2 profiles).Perm profiles) :
    select_closest_nodes prox σ1 tgt profiles max =
        select_closest_nodes prox σ2 tgt profiles max
      ∧ ∀ c ∈ profiles,
          (c ∈ selectClosestSorted prox σ1 tgt profiles max ↔
            profiles.countP
              (fun d => decide (proxKey prox tgt d < proxKey prox tgt c)) <
              max) := by
  have hp1 : (sortedPool prox σ1 tgt profiles).Perm profiles :=
    (sortedPool_perm prox σ1 tgt profiles).trans h1
  have hp2 : (sortedPool prox σ2 tgt profiles).Perm profiles :=
    (sortedPool_perm prox σ2 tgt profiles).trans h2
  have hn1 : ((sortedPool prox σ1 tgt profiles).map (proxKey prox tgt)).Nodup :=
    ((hp1.map (proxKey prox tgt)).nodup_iff).mpr hk
  have hn2 : ((sortedPool prox σ2 tgt profiles).map (proxKey prox tgt)).Nodup :=
    ((hp2.map (proxKey prox tgt)).nodup_iff).mpr hk
  have hst1 := pairwise_lt_of_sorted_nodup
    (sortedPool_pairwise prox σ1 tgt profiles) hn1
  have hst2 := pairwise_lt_of_sorted_nodup
    (sortedPool_pairwise prox σ2 tgt profiles) hn2
  have heq : sortedPool prox σ1 tgt profiles = sortedPool prox σ2 tgt profiles :=
    perm_pairwise_lt_eq (hp1.trans hp2.symm) hst1 hst2
  constructor
  · simp [select_closest_nodes, selectClosestSorted, heq]
  · intro c hc
    have hc1 : c ∈ sortedPool prox σ1 tgt profiles := hp1.mem_iff.mpr hc
    have hiff := mem_take_iff_countP_lt hst1 hc1 max
    have hcnt := hp1.countP_eq
      (fun d => decide (proxKey prox tgt d < proxKey prox tgt c))
    rw [selectClosestSorted]
    rw [hiff, hcnt]

/-- Constant proximity metric used by the claim C1 counterexample: every
candidate ties with every other. -/
def proxC : Proximity := fun _ _ => 0

/-- Target profile of the claim C1 counterexample. -/
def toC : NodeProfile := { address := none, pid := 0 }

/-- First candidate of the claim C1 counterexample. -/
def n1 : Node := { address := 1, profile := { address := some 1, pid := 1 } }

/-- Second candidate of the claim C1 counterexample. -/
def n2 : Node := { address := 2, profile := { address := some 2, pid := 2 } }

/-- Candidate pool of the claim C1 counterexample. -/
def poolC : List Node := [n1, n2]

/-- Claim C1 is false as stated: on the two-candidate pool `poolC` whose
proximities to the target tie, with limit 1, the identity shuffle and the
reversing shuffle (both permutations of the pool) make
`select_closest_nodes` return the different singleton sets {1} and {2}; the
returned set depends on the shuffle when proximity ties cross the selection
boundary. -/
theorem select_closest_set_depends_on_shuffle :
    (List.reverse poolC).Perm poolC
      ∧ select_closest_nodes proxC (fun l => l) toC poolC 1 = [1]
      ∧ select_closest_nodes proxC List.reverse toC poolC 1 = [2]
      ∧ 1 ∈ select_closest_nodes proxC (fun l => l) toC poolC 1
      ∧ 1 ∉ select_closest_nodes proxC List.reverse toC poolC 1 := by
  have e1 : (poolC.mergeSort (proxLe proxC toC)) = poolC :=
    List.mergeSort_of_sorted (by decide)
  have e2 : ((List.reverse poolC).mergeSort (proxLe proxC toC)) =
      List.reverse poolC :=
    List.mergeSort_of_sorted (by decide)
  have r1 : select_closest_nodes proxC (fun l => l) toC poolC 1 = [1] := by
    simp only [select_closest_nodes, selectClosestSorted, sortedPool, e1]
    decide
  have r2 : select_closest_nodes proxC List.reverse toC poolC 1 = [2] := by
    simp only [select_closest_nodes, selectClosestSorted, sortedPool, e2]
    decide
  refine ⟨by decide, r1, r2, ?_, ?_⟩
  · rw [r1]; decide
  · rw [r2]; decide

/-! ### Concrete witness scenario -/

/-- A profile whose own address and interest identifier are both `i`. -/
def pw (i : Nat) : NodeProfile := { address := some i, pid := i }

/-- A node with address `i` and profile `pw i`. -/
def nw (i : Nat) : Node := { address := i, profile := pw i }

/-- A proximity metric with pairwise-distinct values on the witness pool. -/
def proxW : Proximity := fun t c => t.pid + c.pid

/-- The identity shuffle. -/
def idS : Shuffle := fun l => l

/-- A concrete three-node registry. -/
def nsW : Nodes :=
  { available_nodes := [1, 2, 3],
    peek := fun a =>
      if a = 1 then some (nw 1)
      else if a = 2 then some (nw 2)
      else if a = 3 then some (nw 3)
      else none }

/-- A concrete two-node candidate pool. -/
def poolW : List Node := [nw 2, nw 3]

/-- The local node's profile in the witness scenario (own address 1). -/
def identityW : NodeProfile := pw 1

/-- A profile reporting no own address. -/
def identityN : NodeProfile := { address := none, pid := 0 }

/-- A gossip builder whose recipient (2) resolves in `nsW`. -/
def gbW : GossipsBuilder := { recipient := 2, gossips := [] }

/-- A gossip builder whose recipient (9) does not resolve in `nsW`. -/
def gbU : GossipsBuilder := { recipient := 9, gossips := [] }

/-- An empty view builder. -/
def vbW : ViewBuilder := { nodes := [] }

/-- A concrete layer state. -/
def vW : Vicinity := { view := [1, 2], max_view_size := 5, max_gossip_length := 4 }

/-- The concrete registry `nsW` is well-formed. -/
lemma nsW_wf : nsW.WF := by
  constructor
  · decide
  · intro a n h
    simp only [nsW] at h
    split_ifs at h with h1 h2 h3 <;> simp_all [nw, pw] <;> subst h <;> rfl

/-- Witness for claim C1 (amended): on a pool with distinct proximity
values, the identity and reversing shuffles yield the same selection, and
membership is exactly rank-below-limit. -/
theorem select_closest_globally_closest_of_distinct_witness :
    select_closest_nodes proxW idS identityW poolW 1 =
        select_closest_nodes proxW List.reverse identityW poolW 1
      ∧ ∀ c ∈ poolW,
          (c ∈ selectClosestSorted proxW idS identityW poolW 1 ↔
            poolW.countP
              (fun d => decide (proxKey proxW identityW d <
                proxKey proxW identityW c)) < 1) :=
  select_closest_globally_closest_of_distinct proxW idS List.reverse
    identityW poolW 1 (by decide) (List.Perm.refl poolW)
    (List.reverse_perm poolW)

/-- Witness for claim C2: on the two-candidate pool `poolW` with limit 2,
the selection has length `min 2 2`. -/
theorem select_closest_length_eq_min_witness :
    (select_closest_nodes proxW idS identityW poolW 2).length =
      min 2 poolW.length :=
  select_closest_length_eq_min proxW idS identityW poolW 2
    (List.Perm.refl poolW)

/-- Witness for claim C4 at the concrete scenario. -/
theorem layer_outputs_nodup_witness :
    (select_closest_nodes proxW idS identityW poolW 2).Nodup
      ∧ ((vW.populate proxW idS identityW nsW).view).Nodup
      ∧ (select_closest_nodes proxW idS (nw 2).profile
          (gossipCandidates 2 nsW) vW.max_gossip_length).Nodup
      ∧ ((((vW.viewStep { nodes := [] } nsW).2).nodes).map Node.address).Nodup :=
  layer_outputs_nodup proxW idS idS idS identityW identityW poolW 2 vW
    (nw 2) 2 nsW (by decide) (List.Perm.refl poolW) nsW_wf
    (List.Perm.refl (populateCandidates identityW nsW))
    (List.Perm.refl (gossipCandidates 2 nsW)) (by decide)

/-- Witness for claim C5 at the concrete scenario. -/
theorem view_bounded_and_excludes_self_witness :
    (Vicinity.new 5 4).view = []
      ∧ vW.reset.view = []
      ∧ (vW.populate proxW idS identityW nsW).view.length ≤
          (vW.populate proxW idS identityW nsW).max_view_size
      ∧ 1 ∉ (vW.populate proxW idS identityW nsW).view
      ∧ (vW.gossips proxW idS identityW gbW nsW).1.view = vW.view
      ∧ (vW.viewStep vbW nsW).1.view = vW.view :=
  view_bounded_and_excludes_self proxW idS idS 5 4 vW identityW 1 gbW vbW
    nsW nsW_wf (List.Perm.refl (populateCandidates identityW nsW)) rfl

/-- Witness for claim C6 at the concrete scenario: the recipient 2 resolves
to `nw 2`. -/
theorem gossips_bounded_and_excludes_recipient_witness :
    ((vW.gossips proxW idS identityW gbW nsW).2).gossips =
        gbW.gossips ++ select_closest_nodes proxW idS (nw 2).profile
          (gossipCandidates gbW.recipient nsW) vW.max_gossip_length
      ∧ (select_closest_nodes proxW idS (nw 2).profile
          (gossipCandidates gbW.recipient nsW) vW.max_gossip_length).length ≤
            vW.max_gossip_length
      ∧ gbW.recipient ∉ select_closest_nodes proxW idS (nw 2).profile
          (gossipCandidates gbW.recipient nsW) vW.max_gossip_length
      ∧ (vW.max_gossip_length = 0 →
          select_closest_nodes proxW idS (nw 2).profile
            (gossipCandidates gbW.recipient nsW) vW.max_gossip_length = []) :=
  gossips_bounded_and_excludes_recipient proxW idS vW identityW gbW nsW
    (nw 2) nsW_wf (by decide)
    (List.Perm.refl (gossipCandidates gbW.recipient nsW))

/-- Witness for claim C7: the recipient 9 does not resolve in `nsW`, so
`gossips` is a no-op. -/
theorem gossips_unresolved_noop_witness :
    vW.gossips proxW idS identityW gbU nsW = (vW, gbU) :=
  gossips_unresolved_noop proxW idS vW identityW gbU nsW (by decide)

/-- Witness for claim C8 at the concrete scenario. -/
theorem view_forwards_exactly_resolvable_witness :
    ((vW.viewStep vbW nsW).2).nodes = vbW.nodes ++ vW.view.filterMap nsW.peek
      ∧ (vW.view.filterMap nsW.peek).map Node.address =
          vW.view.filter (fun id => (nsW.peek id).isSome) :=
  view_forwards_exactly_resolvable vW vbW nsW nsW_wf

/-- Witness for claim C10: with a profile reporting no address, nothing is
excluded from the candidate pool. -/
theorem populate_excludes_exactly_self_address_witness :
    populateCandidates identityN nsW = nsW.available_nodes.filterMap nsW.peek :=
  (populate_excludes_exactly_self_address identityN nsW).1 rfl

end Poldercast
